import Mathlib

/-!
# log4cxx: SMTPAppender options, its cyclic buffer, and the Transcoder

A shallow embedding of

* `src/main/include/log4cxx/net/smtpappender.h` (the inline option accessors of
  `net::SMTPAppender`), and
* `src/transcoder.cpp` (`log4cxx::mbsnrtowcs`, `log4cxx::wcsnrtombs`,
  `Transcoder::decode`, `Transcoder::encode`), in the configuration the file compiles
  in: `LOG4CXX_LOGCHAR_IS_WCHAR` defined, and `_GCC_VER_` not defined, so that the
  file's own `mbsnrtowcs` and `wcsnrtombs` are the ones called.

Conventions: `size_t` is a natural number below `2 ^ 64` and every operation that can
wrap is written with an explicit `% 2 ^ 64`; characters are natural numbers; a C array is
a list and a pointer into it is an index; a loop whose termination is not structural
takes a fuel argument.
-/

namespace log4cxx

/-! ## Basic types -/

/-- A wide character (`wchar_t`). -/
abbrev wchar_t := Nat

/-- A narrow character (`char`), kept in the range `0 .. 255` by the operations on it. -/
abbrev Byte := Nat

/-- The internal string type: `LogString` is `std::wstring` when `LOG4CXX_LOGCHAR_IS_WCHAR`. -/
abbrev LogString := List wchar_t

/-! ## Machine arithmetic and faults -/

/-- Conversion of an `int` to `size_t`, as in `size_t mblen = -1` or
`mblen = mbtowc(...)`: the value modulo `2 ^ 64`. -/
def toSizeT (i : Int) : Nat := (i % (2 ^ 64 : Int)).toNat

/-- Subtraction of two `size_t` values, wrapping modulo `2 ^ 64`. -/
def subSizeT (a b : Nat) : Nat := (a + (2 ^ 64 - b % 2 ^ 64)) % 2 ^ 64

/-- Addition of a `size_t` to a pointer or another `size_t`, wrapping modulo `2 ^ 64`. -/
def addSizeT (a b : Nat) : Nat := (a + b) % 2 ^ 64

/-- Why a run of the embedded code gives no result. -/
inductive Fault where
  /-- A pointer left its array, or memory outside an array was accessed. -/
  | undefined
  /-- The loop was still running when the fuel ran out. -/
  | fuel
  deriving DecidableEq, Repr

/-! ## The cyclic buffer -/

namespace helpers

/-- Modelled from the spec: the class `helpers::CyclicBuffer` (header
`log4cxx/helpers/cyclicbuffer.h` and its implementation are not among the sources).
The spec gives it a `capacity` and an ordered sequence `records`, oldest first, of length
at most `capacity`. -/
structure CyclicBuffer (α : Type) where
  capacity : Nat
  records : List α

/-- Modelled from the spec: a buffer is created empty with a capacity. -/
def CyclicBuffer.create {α : Type} (capacity : Nat) : CyclicBuffer α :=
  { capacity := capacity, records := [] }

/-- Modelled from the spec: `add(record) -> evictedRecord?` appends `record` as newest; if
the buffer was at capacity, the oldest record is dropped and returned. With capacity `0`
every add evicts immediately and the buffer stays empty. -/
def CyclicBuffer.add {α : Type} (b : CyclicBuffer α) (record : α) : CyclicBuffer α × Option α :=
  if b.records.length < b.capacity then
    ({ b with records := b.records ++ [record] }, none)
  else
    ({ b with records := (b.records ++ [record]).tail }, (b.records ++ [record]).head?)

/-- Modelled from the spec: `snapshot()` returns all retained records, oldest to newest,
without removing them. -/
def CyclicBuffer.snapshot {α : Type} (b : CyclicBuffer α) : List α :=
  b.records

/-- Modelled from the spec: `clear()` empties the buffer. -/
def CyclicBuffer.clear {α : Type} (b : CyclicBuffer α) : CyclicBuffer α :=
  { b with records := [] }

/-- The buffer reached from an empty buffer of capacity `C` by adding `recs` in order,
with no flush (no `clear`) in between. -/
def CyclicBuffer.addAll {α : Type} (C : Nat) (recs : List α) : CyclicBuffer α :=
  recs.foldl (fun b r => (b.add r).1) (CyclicBuffer.create C)

end helpers

/-! ## SMTPAppender: option fields and inline accessors -/

namespace net

/-- The data members of `net::SMTPAppender` (smtpappender.h, lines 47-59), in declaration
order; the members `to` and `from` are spelled `to_` and `from_`, the plain words
being reserved. `Event` is the type of logging events held by the cyclic buffer; `session` is a
`void *`, kept as an address; `evaluator` is the triggering-event predicate. -/
structure SMTPAppender (Event : Type) where
  to_ : LogString
  from_ : LogString
  subject : LogString
  smtpHost : LogString
  bufferSize : Int
  locationInfo : Bool
  cb : helpers.CyclicBuffer Event
  session : Nat
  encoding : LogString
  charset : LogString
  evaluator : Event → Bool

variable {Event : Type}

/-- Inline `getTo()`: `return to;`. -/
def SMTPAppender.getTo (this : SMTPAppender Event) : LogString := this.to_

/-- Inline `getCharset()`: `return charset;`. -/
def SMTPAppender.getCharset (this : SMTPAppender Event) : LogString := this.charset

/-- Inline `getEncoding()`: `return encoding;`. -/
def SMTPAppender.getEncoding (this : SMTPAppender Event) : LogString := this.encoding

/-- Inline `getFrom()`: `return from;`. -/
def SMTPAppender.getFrom (this : SMTPAppender Event) : LogString := this.from_

/-- Inline `getSubject()`: `return subject;`. -/
def SMTPAppender.getSubject (this : SMTPAppender Event) : LogString := this.subject

/-- Inline `getSMTPHost()`: `return smtpHost;`. -/
def SMTPAppender.getSMTPHost (this : SMTPAppender Event) : LogString := this.smtpHost

/-- Inline `getBufferSize()`: `return bufferSize;`. -/
def SMTPAppender.getBufferSize (this : SMTPAppender Event) : Int := this.bufferSize

/-- Inline `getLocationInfo()`: `return locationInfo;`. -/
def SMTPAppender.getLocationInfo (this : SMTPAppender Event) : Bool := this.locationInfo

/-- Inline `setCharset(const LogString& charset)`: `this->charset.assign(charset);`. -/
def SMTPAppender.setCharset (this : SMTPAppender Event) (charset : LogString) :
    SMTPAppender Event :=
  { this with charset := charset }

/-- Inline `setEncoding(const LogString& charset)`: `this->encoding.assign(encoding);`.
The parameter is called `charset`, so the name `encoding` in the body is the data member:
the member is assigned from itself and the parameter is not read. -/
def SMTPAppender.setEncoding (this : SMTPAppender Event) (_charset : LogString) :
    SMTPAppender Event :=
  { this with encoding := this.encoding }

/-- Inline `setFrom(const LogString& from)`: `this->from.assign(from);`. -/
def SMTPAppender.setFrom (this : SMTPAppender Event) (from_ : LogString) :
    SMTPAppender Event :=
  { this with from_ := from_ }

/-- Inline `setSubject(const LogString& subject)`: `this->subject.assign(subject);`. -/
def SMTPAppender.setSubject (this : SMTPAppender Event) (subject : LogString) :
    SMTPAppender Event :=
  { this with subject := subject }

/-- Inline `setSMTPHost(const LogString& smtpHost)`: `this->smtpHost.assign(smtpHost);`. -/
def SMTPAppender.setSMTPHost (this : SMTPAppender Event) (smtpHost : LogString) :
    SMTPAppender Event :=
  { this with smtpHost := smtpHost }

/-- Inline `setTo(const LogString& to)`: `this->to.assign(to);`. -/
def SMTPAppender.setTo (this : SMTPAppender Event) (to_ : LogString) : SMTPAppender Event :=
  { this with to_ := to_ }

/-- Inline `setLocationInfo(bool locationInfo)`: `this->locationInfo = locationInfo;`. -/
def SMTPAppender.setLocationInfo (this : SMTPAppender Event) (locationInfo : Bool) :
    SMTPAppender Event :=
  { this with locationInfo := locationInfo }

/-- A concrete appender state used to instantiate the theorems below. -/
def sampleAppender : SMTPAppender Nat :=
  { to_ := [97], from_ := [98], subject := [99], smtpHost := [100], bufferSize := 512,
    locationInfo := false, cb := helpers.CyclicBuffer.create 512, session := 0,
    encoding := [55, 98, 105, 116], charset := [117, 115], evaluator := fun _ => false }

end net

/-! ## transcoder.cpp: the replacement conversion primitives -/

/-- What one call `mbtowc(pwc, s, n)` of the C library does. -/
inductive MbtowcResult where
  /-- The bytes are not a valid character: returns `-1`, stores nothing. -/
  | invalid
  /-- The bytes start with the NUL character: returns `0`, stores `0` through `pwc`. -/
  | nul
  /-- A character of `n` bytes: returns `n`, stores `wc` through `pwc`. -/
  | char (wc : wchar_t) (n : Nat)
  deriving DecidableEq, Repr

/-- The `int` returned by `mbtowc`. -/
def MbtowcResult.ret : MbtowcResult → Int
  | .invalid => -1
  | .nul => 0
  | .char _ n => (n : Int)

/-- The array `dest` points into after `mbtowc(dest, ...)`, `dest` being index `i`. -/
def MbtowcResult.store (r : MbtowcResult) (buf : List wchar_t) (i : Nat) : List wchar_t :=
  match r with
  | .invalid => buf
  | .nul => buf.set i 0
  | .char wc _ => buf.set i wc

/-- The loop of `log4cxx::mbsnrtowcs` (transcoder.cpp, lines 41-48).

`mbtowc` is the C library function, given the at most `srclen` bytes at `*src`; `mem` is
the array `*src` points into and `src` the index of `*src` in it; `buf` is the array
`dest` points into and `dest` its index. A call of `mbtowc` whose bytes
`[src, src + srclen)` are not all inside `mem`, and a `*src` moved outside `mem`, are
faults. The recursion is on `destlen`, which every iteration that does not leave the loop
decrements by one. The result is `(buf, *src, destlen, mblen)` at loop exit. -/
def mbsnrtowcs_loop (mbtowc : List Byte → MbtowcResult) (mem : List Byte) :
    (destlen : Nat) → (buf : List wchar_t) → (dest : Nat) → (src : Nat) → (srclen : Nat) →
    (mblen : Nat) → Except Fault (List wchar_t × Nat × Nat × Nat)
  | 0, buf, _, src, _, mblen => .ok (buf, src, 0, mblen)
  | destlen + 1, buf, dest, src, srclen, mblen =>
    -- while (srclen > 0 && destlen > 0)
    if srclen > 0 then
      -- mblen = mbtowc(dest, *src, srclen): examines the bytes [src, src + srclen)
      if src + srclen ≤ mem.length then
        let r := mbtowc ((mem.drop src).take srclen)
        let buf := r.store buf dest
        let mblen := toSizeT r.ret
        -- if (mblen <= 0) break;
        if mblen ≤ 0 then .ok (buf, src, destlen + 1, mblen)
        else
          -- *src += mblen;
          let src := addSizeT src mblen
          if src ≤ mem.length then
            -- *dest++; destlen--; srclen -= mblen;
            mbsnrtowcs_loop mbtowc mem destlen buf (dest + 1) src (subSizeT srclen mblen) mblen
          else .error .undefined
      else .error .undefined
    else .ok (buf, src, destlen + 1, mblen)

/-- The function `log4cxx::mbsnrtowcs(dest, src, srclenin, destlenin, ps)` (transcoder.cpp,
lines 36-53), `dest` pointing at the start of `buf`. The result is the returned `size_t`,
the array `buf` and the new value of `*src`. -/
def mbsnrtowcs (mbtowc : List Byte → MbtowcResult) (mem : List Byte) (buf : List wchar_t)
    (src : Nat) (srclenin : Nat) (destlenin : Nat) : Except Fault (Nat × List wchar_t × Nat) :=
  -- size_t mblen = -1;
  match mbsnrtowcs_loop mbtowc mem destlenin buf 0 src srclenin (toSizeT (-1)) with
  | .error e => .error e
  | .ok (buf, src, destlen, mblen) =>
    -- if (mblen < 0) return mblen;   (mblen is a size_t)
    if mblen < 0 then .ok (mblen, buf, src)
    -- return destlenin - destlen;
    else .ok (destlenin - destlen, buf, src)

/-- What one call `wctomb(s, wc)` of the C library does. -/
inductive WctombResult where
  /-- The character has no multi-byte representation: returns `-1`. -/
  | invalid
  /-- The character is written as the bytes `bs`: returns their number. -/
  | bytes (bs : List Byte)
  deriving DecidableEq, Repr

/-- The `int` returned by `wctomb`. -/
def WctombResult.ret : WctombResult → Int
  | .invalid => -1
  | .bytes bs => (bs.length : Int)

/-- The bytes `wctomb` has stored at the start of its 12-byte array. -/
def WctombResult.stored : WctombResult → List Byte
  | .invalid => []
  | .bytes bs => bs

/-- The loop of `log4cxx::wcsnrtombs` (transcoder.cpp, lines 61-69).

`wctomb` is the C library function; `mem` is the array the caller's pointer `in` points
into and `in_` its index. The parameter `src` is the address of the caller's `in`;
`srcpp` counts how far `src` itself has been moved from that address, so `**src` reads
`mem[in_]` when `srcpp = 0` and is an access past the variable `in` otherwise. `buf` is the
array `dest` points at the start of (`dest` is never moved); a `memcpy` of more bytes than
the 12 of the local array or than `buf` holds is a fault. The recursion is on `srclen`,
which every iteration that does not leave the loop decrements by one. The result is
`(buf, in, destlen, mblen)` at loop exit. -/
def wcsnrtombs_loop (wctomb : wchar_t → WctombResult) (mem : List wchar_t) (in_ : Nat) :
    (srclen : Nat) → (buf : List Byte) → (srcpp : Nat) → (destlen : Nat) → (mblen : Nat) →
    Except Fault (List Byte × Nat × Nat × Nat)
  | 0, buf, _, destlen, mblen => .ok (buf, in_, destlen, mblen)
  | srclen + 1, buf, srcpp, destlen, mblen =>
    -- while (srclen > 0 && destlen > 0)
    if destlen > 0 then
      -- mblen = wctomb(buf, **src);   (this buf is the local char buf[12])
      if srcpp = 0 ∧ in_ < mem.length then
        let r := wctomb (mem.getD in_ 0)
        let mblen := toSizeT r.ret
        -- if (mblen <= 0) break;
        if mblen ≤ 0 then .ok (buf, in_, destlen, mblen)
        else
          -- *src++;   (moves src, not *src)
          let srcpp := srcpp + 1
          -- memcpy(dest, buf, mblen): mblen bytes out of char buf[12] into dest
          if mblen ≤ 12 ∧ mblen ≤ buf.length then
            let buf := r.stored.take mblen ++ buf.drop mblen
            -- *dest += mblen;   (adds to the char at dest, does not move dest)
            let buf := buf.set 0 ((buf.getD 0 0 + mblen) % 256)
            -- destlen -= mblen; srclen--;
            wcsnrtombs_loop wctomb mem in_ srclen buf srcpp (subSizeT destlen mblen) mblen
          else .error .undefined
      else .error .undefined
    else .ok (buf, in_, destlen, mblen)

/-- The function `log4cxx::wcsnrtombs(dest, src, srclenin, destlenin, ps)` (transcoder.cpp,
lines 55-74), `dest` pointing at the start of `buf` and `src` at the caller's `in`. The
result is the returned `size_t`, the array `buf` and the value of the caller's `in`. -/
def wcsnrtombs (wctomb : wchar_t → WctombResult) (mem : List wchar_t) (buf : List Byte)
    (in_ : Nat) (srclenin : Nat) (destlenin : Nat) : Except Fault (Nat × List Byte × Nat) :=
  -- size_t mblen = -1;
  match wcsnrtombs_loop wctomb mem in_ srclenin buf 0 destlenin (toSizeT (-1)) with
  | .error e => .error e
  | .ok (buf, in_, destlen, mblen) =>
    -- if (mblen < 0) return mblen;   (mblen is a size_t)
    if mblen < 0 then .ok (mblen, buf, in_)
    -- return destlenin - destlen;
    else .ok (subSizeT destlenin destlen, buf, in_)

/-! ## transcoder.cpp: Transcoder -/

namespace helpers

namespace Transcoder

/-- The `for` loop of `Transcoder::decode(const char*, size_t, LogString&)`
(transcoder.cpp, lines 84-97). `src` is the array the pointer `src` points at the start
of, `in_` the index of `in` in it; `in` stays inside the array (`mbsnrtowcs` faults
otherwise), so it is not `NULL` and `in < src + len` compares indices. `BUFSIZE` and
`SUBSTITUTION_WCHAR` are constants of the absent header `transcoder.h`. Each iteration
takes one unit of fuel. -/
def decode_loop (mbtowc : List Byte → MbtowcResult) (BUFSIZE : Nat)
    (SUBSTITUTION_WCHAR : wchar_t) (src : List Byte) (len : Nat) :
    (fuel : Nat) → (in_ : Nat) → (buf : List wchar_t) → (dst : LogString) →
    Except Fault LogString
  | 0, _, _, _ => .error .fuel
  | fuel + 1, in_, buf, dst =>
    -- in < src + len && in != NULL
    if in_ < len then
      -- size_t rv = mbsnrtowcs(buf, &in, len - (in - src), BUFSIZE, &ps);
      match mbsnrtowcs mbtowc src buf in_ (subSizeT len in_) BUFSIZE with
      | .error e => .error e
      | .ok (rv, buf, in_) =>
        -- if (rv > (size_t) 0) dst.append(buf, rv);
        let dst := if rv > 0 then dst ++ buf.take rv else dst
        -- if (rv < 0) { dst.append(1, SUBSTITUTION_WCHAR); in++; }   (rv is a size_t)
        if rv < 0 then
          decode_loop mbtowc BUFSIZE SUBSTITUTION_WCHAR src len fuel (addSizeT in_ 1) buf
            (dst ++ [SUBSTITUTION_WCHAR])
        else
          decode_loop mbtowc BUFSIZE SUBSTITUTION_WCHAR src len fuel in_ buf dst
    else .ok dst

/-- The function `Transcoder::decode(const char* src, size_t len, LogString& dst)`
(transcoder.cpp, lines 80-98). The local array `wchar_t buf[BUFSIZE]` is not initialised:
`uninit i` is the value element `i` happens to hold on entry. The result is the final
`dst`. -/
def decode (mbtowc : List Byte → MbtowcResult) (BUFSIZE : Nat) (SUBSTITUTION_WCHAR : wchar_t)
    (uninit : Nat → wchar_t) (fuel : Nat) (src : List Byte) (len : Nat) (dst : LogString) :
    Except Fault LogString :=
  decode_loop mbtowc BUFSIZE SUBSTITUTION_WCHAR src len fuel 0
    ((List.range BUFSIZE).map uninit) dst

/-- The function `Transcoder::decode(const wchar_t* src, size_t len, LogString& dst)`
(transcoder.cpp, lines 100-102): `dst.append(src, len)`, which reads the `len` characters
at `src`; `src` is the array behind the pointer. -/
def decodeW (src : List wchar_t) (len : Nat) (dst : LogString) : Except Fault LogString :=
  if len ≤ src.length then .ok (dst ++ src.take len) else .error .undefined

/-- The `for` loop of `Transcoder::encode(const LogString&, std::string&)`
(transcoder.cpp, lines 109-119). `src` is the character array of the string (`pSrc`),
`in_` the index of `in` in it. `dst.append(buf, rv)` with `rv` above the size of `buf`
reads past the array and is a fault. `BUFSIZE` and `SUBSTITUTION_CHAR` are constants of
the absent header `transcoder.h`. Each iteration takes one unit of fuel. -/
def encode_loop (wctomb : wchar_t → WctombResult) (BUFSIZE : Nat) (SUBSTITUTION_CHAR : Byte)
    (src : LogString) :
    (fuel : Nat) → (in_ : Nat) → (buf : List Byte) → (dst : List Byte) →
    Except Fault (List Byte)
  | 0, _, _, _ => .error .fuel
  | fuel + 1, in_, buf, dst =>
    -- in < pSrc + srcLen && in != NULL
    if in_ < src.length then
      -- size_t rv = wcsnrtombs(buf, &in, srcLen - (in - pSrc), BUFSIZE, &ps);
      match wcsnrtombs wctomb src buf in_ (subSizeT src.length in_) BUFSIZE with
      | .error e => .error e
      | .ok (rv, buf, in_) =>
        -- if (rv > (size_t) 0) dst.append(buf, rv);
        if rv > 0 ∧ rv > buf.length then .error .undefined
        else
          let dst := if rv > 0 then dst ++ buf.take rv else dst
          -- if (rv < 0) { dst.append(1, SUBSTITUTION_CHAR); in++; }   (rv is a size_t)
          if rv < 0 then
            encode_loop wctomb BUFSIZE SUBSTITUTION_CHAR src fuel (addSizeT in_ 1) buf
              (dst ++ [SUBSTITUTION_CHAR])
          else
            encode_loop wctomb BUFSIZE SUBSTITUTION_CHAR src fuel in_ buf dst
    else .ok dst

/-- The function `Transcoder::encode(const LogString& src, std::string& dst)`
(transcoder.cpp, lines 104-120). The local array `char buf[BUFSIZE]` is not initialised:
`uninit i` is the value element `i` happens to hold on entry. The result is the final
`dst`. -/
def encode (wctomb : wchar_t → WctombResult) (BUFSIZE : Nat) (SUBSTITUTION_CHAR : Byte)
    (uninit : Nat → Byte) (fuel : Nat) (src : LogString) (dst : List Byte) :
    Except Fault (List Byte) :=
  encode_loop wctomb BUFSIZE SUBSTITUTION_CHAR src fuel 0 ((List.range BUFSIZE).map uninit) dst

/-- The function `Transcoder::encode(const LogString& src, std::wstring& dst)`
(transcoder.cpp, lines 122-124): `dst.append(src)`. -/
def encodeW (src : LogString) (dst : List wchar_t) : List wchar_t :=
  dst ++ src

end Transcoder

end helpers

/-! ## Conversion primitives used to instantiate the theorems -/

/-- A single-byte `mbtowc`, as in the "C" locale: byte `0` is the NUL character, a byte
`1 .. 127` is the character of the same value, any other byte is invalid, and so is an
empty input. -/
def asciiMbtowc : List Byte → MbtowcResult
  | [] => .invalid
  | b :: _ => if b = 0 then .nul else if b < 128 then .char b 1 else .invalid

/-- A two-byte `mbtowc` in the manner of UTF-8: byte `0` is the NUL character, a byte
`1 .. 127` is a one-byte character, a byte `192 .. 223` followed by a byte `128 .. 191` is a
two-byte character, and everything else is invalid. -/
def utf8Mbtowc : List Byte → MbtowcResult
  | [] => .invalid
  | b :: rest =>
    if b = 0 then .nul
    else if b < 128 then .char b 1
    else if 192 ≤ b ∧ b < 224 then
      match rest with
      | c :: _ => if 128 ≤ c ∧ c < 192 then .char ((b - 192) * 64 + (c - 128)) 2 else .invalid
      | [] => .invalid
    else .invalid

/-- A single-byte `wctomb`, as in the "C" locale: a character below `128` is written as the
byte of the same value, any other character has no representation. -/
def asciiWctomb (wc : wchar_t) : WctombResult :=
  if wc < 128 then .bytes [wc] else .invalid

/-- The byte string `src` is a concatenation of complete, valid, non-NUL multi-byte
characters, whose wide characters are `ws` in order: at every character boundary `mbtowc`,
given all the remaining bytes, reports a character of between one byte and all of them. -/
inductive Decodes (mbtowc : List Byte → MbtowcResult) : List Byte → List wchar_t → Prop where
  | nil : Decodes mbtowc [] []
  | cons (s : List Byte) (wc : wchar_t) (n : Nat) (ws : List wchar_t) :
      mbtowc s = .char wc n → 1 ≤ n → n ≤ s.length → Decodes mbtowc (s.drop n) ws →
      Decodes mbtowc s (wc :: ws)

/-! ## Theorems: the cyclic buffer -/

namespace helpers

variable {α : Type}

theorem CyclicBuffer.add_capacity (b : CyclicBuffer α) (r : α) :
    (b.add r).1.capacity = b.capacity := by
  unfold CyclicBuffer.add
  split <;> rfl

/-- One `add` keeps the invariant "the records are the last `capacity` elements of the
history". -/
theorem CyclicBuffer.add_records (b : CyclicBuffer α) (r : α) (hist : List α)
    (h : b.records = hist.drop (hist.length - b.capacity)) :
    (b.add r).1.records = (hist ++ [r]).drop ((hist ++ [r]).length - b.capacity) := by
  have hlen : b.records.length = hist.length - (hist.length - b.capacity) := by
    rw [h, List.length_drop]
  unfold CyclicBuffer.add
  by_cases hlt : b.records.length < b.capacity
  · have h0 : hist.length - b.capacity = 0 := by omega
    have h1 : (hist ++ [r]).length - b.capacity = 0 := by
      simp only [List.length_append, List.length_singleton]; omega
    rw [if_pos hlt]
    simp only [h, h0, h1, List.drop_zero]
  · rw [if_neg hlt]
    have ha : hist.length - b.capacity ≤ hist.length := Nat.sub_le _ _
    show (b.records ++ [r]).tail = _
    rw [h, ← List.drop_one, ← List.drop_append_of_le_length ha, List.drop_drop]
    congr 1
    simp only [List.length_append, List.length_singleton]
    omega

theorem CyclicBuffer.foldl_add_records (recs : List α) :
    ∀ (b : CyclicBuffer α) (hist : List α),
      b.records = hist.drop (hist.length - b.capacity) →
      (recs.foldl (fun b r => (b.add r).1) b).capacity = b.capacity ∧
      (recs.foldl (fun b r => (b.add r).1) b).records =
        (hist ++ recs).drop ((hist ++ recs).length - b.capacity) := by
  induction recs with
  | nil => intro b hist h; simpa using h
  | cons r rs ih =>
    intro b hist h
    have step := ih (b.add r).1 (hist ++ [r])
      (by rw [CyclicBuffer.add_capacity]; exact CyclicBuffer.add_records b r hist h)
    rw [CyclicBuffer.add_capacity] at step
    simpa using step

/-- Claim C1. For every capacity `C ≥ 1` and every sequence `recs` of `N` records added to
the cyclic buffer with no flush in between, the retained contents have length `min N C`
and are exactly the last `min N C` added records, in insertion order. -/
theorem CyclicBuffer.addAll_keeps_last (C : Nat) (recs : List α) (hC : 1 ≤ C) :
    (CyclicBuffer.addAll C recs).snapshot.length = min recs.length C ∧
    (CyclicBuffer.addAll C recs).snapshot =
      recs.drop (recs.length - min recs.length C) := by
  have h := CyclicBuffer.foldl_add_records recs (CyclicBuffer.create C) []
    (by simp [CyclicBuffer.create])
  have hrec : (CyclicBuffer.addAll C recs).snapshot = recs.drop (recs.length - C) := by
    have h2 := h.2
    simp only [CyclicBuffer.create, List.nil_append] at h2
    exact h2
  have hmin : recs.length - min recs.length C = recs.length - C := by omega
  refine ⟨?_, ?_⟩
  · rw [hrec, List.length_drop]; omega
  · rw [hrec, hmin]

/-- Claim C1 at capacity 2 and the records 10, 20, 30: the buffer retains 20, 30. -/
theorem CyclicBuffer.addAll_keeps_last_witness :
    (1 ≤ 2) ∧
    (CyclicBuffer.addAll 2 [10, 20, 30]).snapshot.length = min [10, 20, 30].length 2 ∧
    (CyclicBuffer.addAll 2 [10, 20, 30]).snapshot =
      [10, 20, 30].drop ([10, 20, 30].length - min [10, 20, 30].length 2) :=
  ⟨by decide, CyclicBuffer.addAll_keeps_last 2 [10, 20, 30] (by decide)⟩

end helpers

/-! ## Theorems: the SMTPAppender accessors -/

namespace net

variable {Event : Type}

/-- Claim C6. For every appender state and every string `v`, `setEncoding(v)` assigns the
encoding member to itself: `getEncoding()` afterwards returns what it returned before
(so not `v`, whenever `v` differs from it), no other option (charset, to, from, subject,
smtpHost, bufferSize, locationInfo) changes, and indeed the whole state is unchanged. -/
theorem SMTPAppender.setEncoding_keeps_encoding (this : SMTPAppender Event) (v : LogString) :
    (this.setEncoding v).getEncoding = this.getEncoding ∧
    (v ≠ this.getEncoding → (this.setEncoding v).getEncoding ≠ v) ∧
    (this.setEncoding v).getCharset = this.getCharset ∧
    (this.setEncoding v).getTo = this.getTo ∧
    (this.setEncoding v).getFrom = this.getFrom ∧
    (this.setEncoding v).getSubject = this.getSubject ∧
    (this.setEncoding v).getSMTPHost = this.getSMTPHost ∧
    (this.setEncoding v).getBufferSize = this.getBufferSize ∧
    (this.setEncoding v).getLocationInfo = this.getLocationInfo ∧
    this.setEncoding v = this :=
  ⟨rfl, fun h h2 => h (Eq.symm h2), rfl, rfl, rfl, rfl, rfl, rfl, rfl, rfl⟩

/-- Claim C6 at the sample appender, whose encoding is "7bit": after `setEncoding("b")`
the encoding is still "7bit" and is not "b". -/
theorem SMTPAppender.setEncoding_keeps_encoding_witness :
    (sampleAppender.setEncoding [98]).getEncoding = [55, 98, 105, 116] ∧
    (sampleAppender.setEncoding [98]).getEncoding ≠ [98] :=
  ⟨(SMTPAppender.setEncoding_keeps_encoding sampleAppender [98]).1,
   (SMTPAppender.setEncoding_keeps_encoding sampleAppender [98]).2.1 (by decide)⟩

/-- Claim C7. For each of the options To, From, Subject, SMTPHost, Charset and LocationInfo,
every appender state and every value: the setter yields the state in which that option's
member is the value and every other member is unchanged, the getter called next returns
the value, and setting the same value twice equals setting it once. -/
theorem SMTPAppender.setter_assigns_only_its_member (this : SMTPAppender Event)
    (v : LogString) (b : Bool) :
    (this.setTo v =
        { to_ := v, from_ := this.from_, subject := this.subject, smtpHost := this.smtpHost,
          bufferSize := this.bufferSize, locationInfo := this.locationInfo, cb := this.cb,
          session := this.session, encoding := this.encoding, charset := this.charset,
          evaluator := this.evaluator } ∧
      (this.setTo v).getTo = v ∧ (this.setTo v).setTo v = this.setTo v) ∧
    (this.setFrom v =
        { to_ := this.to_, from_ := v, subject := this.subject, smtpHost := this.smtpHost,
          bufferSize := this.bufferSize, locationInfo := this.locationInfo, cb := this.cb,
          session := this.session, encoding := this.encoding, charset := this.charset,
          evaluator := this.evaluator } ∧
      (this.setFrom v).getFrom = v ∧ (this.setFrom v).setFrom v = this.setFrom v) ∧
    (this.setSubject v =
        { to_ := this.to_, from_ := this.from_, subject := v, smtpHost := this.smtpHost,
          bufferSize := this.bufferSize, locationInfo := this.locationInfo, cb := this.cb,
          session := this.session, encoding := this.encoding, charset := this.charset,
          evaluator := this.evaluator } ∧
      (this.setSubject v).getSubject = v ∧
      (this.setSubject v).setSubject v = this.setSubject v) ∧
    (this.setSMTPHost v =
        { to_ := this.to_, from_ := this.from_, subject := this.subject, smtpHost := v,
          bufferSize := this.bufferSize, locationInfo := this.locationInfo, cb := this.cb,
          session := this.session, encoding := this.encoding, charset := this.charset,
          evaluator := this.evaluator } ∧
      (this.setSMTPHost v).getSMTPHost = v ∧
      (this.setSMTPHost v).setSMTPHost v = this.setSMTPHost v) ∧
    (this.setCharset v =
        { to_ := this.to_, from_ := this.from_, subject := this.subject,
          smtpHost := this.smtpHost, bufferSize := this.bufferSize,
          locationInfo := this.locationInfo, cb := this.cb, session := this.session,
          encoding := this.encoding, charset := v, evaluator := this.evaluator } ∧
      (this.setCharset v).getCharset = v ∧
      (this.setCharset v).setCharset v = this.setCharset v) ∧
    (this.setLocationInfo b =
        { to_ := this.to_, from_ := this.from_, subject := this.subject,
          smtpHost := this.smtpHost, bufferSize := this.bufferSize, locationInfo := b,
          cb := this.cb, session := this.session, encoding := this.encoding,
          charset := this.charset, evaluator := this.evaluator } ∧
      (this.setLocationInfo b).getLocationInfo = b ∧
      (this.setLocationInfo b).setLocationInfo b = this.setLocationInfo b) :=
  ⟨⟨rfl, rfl, rfl⟩, ⟨rfl, rfl, rfl⟩, ⟨rfl, rfl, rfl⟩, ⟨rfl, rfl, rfl⟩, ⟨rfl, rfl, rfl⟩,
   ⟨rfl, rfl, rfl⟩⟩

end net

/-! ## Lemmas: machine arithmetic -/

theorem toSizeT_natCast (n : Nat) (h : n < 2 ^ 64) : toSizeT (n : Int) = n := by
  unfold toSizeT
  omega

theorem subSizeT_of_le (a b : Nat) (hb : b ≤ a) (ha : a < 2 ^ 64) : subSizeT a b = a - b := by
  unfold subSizeT
  omega

theorem addSizeT_of_lt (a b : Nat) (h : a + b < 2 ^ 64) : addSizeT a b = a + b := by
  unfold addSizeT
  omega

theorem take_succ_set (wc : wchar_t) :
    ∀ (buf : List wchar_t) (i : Nat), i < buf.length →
      (buf.set i wc).take (i + 1) = buf.take i ++ [wc] := by
  intro buf
  induction buf with
  | nil => intro i h; simp at h
  | cons x xs ih =>
    intro i h
    cases i with
    | zero => simp
    | succ j =>
      have hj : j < xs.length := by simpa using h
      simp [ih j hj]

/-! ## Lemmas: valid multi-byte input -/

theorem Decodes.inv {mbtowc : List Byte → MbtowcResult} {s : List Byte} {ws : List wchar_t}
    (h : Decodes mbtowc s ws) :
    (s = [] ∧ ws = []) ∨
    ∃ wc n ws1, ws = wc :: ws1 ∧ mbtowc s = .char wc n ∧ 1 ≤ n ∧ n ≤ s.length ∧
      Decodes mbtowc (s.drop n) ws1 := by
  cases h with
  | nil => exact Or.inl ⟨rfl, rfl⟩
  | cons s wc n ws1 h1 h2 h3 h4 => exact Or.inr ⟨wc, n, ws1, rfl, h1, h2, h3, h4⟩

theorem Decodes.length_le {mbtowc : List Byte → MbtowcResult} {s : List Byte}
    {ws : List wchar_t} (h : Decodes mbtowc s ws) : ws.length ≤ s.length := by
  induction h with
  | nil => simp
  | cons s wc n ws1 _ h2 h3 _ ih =>
    rw [List.length_drop] at ih
    simp only [List.length_cons]
    omega

/-- On valid input the loop of `mbsnrtowcs` converts `min destlen (number of characters)`
characters, stores them from index `dest` on, and leaves `*src` at a character boundary. -/
theorem mbsnrtowcs_loop_valid (mbtowc : List Byte → MbtowcResult) (mem : List Byte)
    (hmem : mem.length < 2 ^ 64) :
    ∀ (destlen : Nat) (buf : List wchar_t) (dest src mblen : Nat) (ws : List wchar_t),
      src ≤ mem.length → dest + destlen ≤ buf.length →
      Decodes mbtowc (mem.drop src) ws →
      ∃ buf2 src2 mblen2,
        mbsnrtowcs_loop mbtowc mem destlen buf dest src (mem.length - src) mblen =
          .ok (buf2, src2, destlen - min destlen ws.length, mblen2) ∧
        buf2.length = buf.length ∧
        buf2.take (dest + min destlen ws.length) =
          buf.take dest ++ ws.take (min destlen ws.length) ∧
        src2 ≤ mem.length ∧
        Decodes mbtowc (mem.drop src2) (ws.drop (min destlen ws.length)) := by
  intro destlen
  induction destlen with
  | zero =>
    intro buf dest src mblen ws hsrc _ hdec
    exact ⟨buf, src, mblen, by simp [mbsnrtowcs_loop], rfl, by simp, hsrc, by simpa using hdec⟩
  | succ d ih =>
    intro buf dest src mblen ws hsrc hdest hdec
    rcases hdec.inv with ⟨hnil, hws⟩ | ⟨wc, n, ws1, hws, hmb, hn1, hn2, hrest⟩
    · -- no input left: the loop condition fails
      have hlen : mem.length - src = 0 := by
        have := congrArg List.length hnil
        simpa [List.length_drop] using this
      subst hws
      refine ⟨buf, src, mblen, ?_, rfl, by simp, hsrc, by simpa using hdec⟩
      rw [mbsnrtowcs_loop, hlen]
      simp
    · -- one more character
      rw [List.length_drop] at hn2
      have hpos : mem.length - src > 0 := by omega
      have hwin : (mem.drop src).take (mem.length - src) = mem.drop src :=
        List.take_of_length_le (by rw [List.length_drop])
      have hto : toSizeT (MbtowcResult.char wc n).ret = n := by
        show toSizeT (n : Int) = n
        exact toSizeT_natCast n (by omega)
      have hadd : addSizeT src n = src + n := addSizeT_of_lt src n (by omega)
      have hsub : subSizeT (mem.length - src) n = mem.length - (src + n) := by
        rw [subSizeT_of_le _ _ hn2 (by omega)]; omega
      have hrest2 : Decodes mbtowc (mem.drop (src + n)) ws1 := by
        simpa [List.drop_drop] using hrest
      obtain ⟨buf2, src2, mblen2, hrun, hlen2, htake, hsrc2, hdec2⟩ :=
        ih ((MbtowcResult.char wc n).store buf dest) (dest + 1) (src + n) n ws1
          (by omega) (by simp [MbtowcResult.store]; omega) hrest2
      have hmin : min (d + 1) ws.length = min d ws1.length + 1 := by
        subst hws; simp only [List.length_cons]; omega
      refine ⟨buf2, src2, mblen2, ?_, ?_, ?_, hsrc2, ?_⟩
      · rw [mbsnrtowcs_loop, if_pos hpos, if_pos (by omega), hwin, hmb]
        simp only [hto, hadd, hsub]
        have e : d + 1 - (min d ws1.length + 1) = d - min d ws1.length := by omega
        rw [if_neg (by omega), if_pos (by omega), hrun, hmin, e]
      · simpa [MbtowcResult.store] using hlen2
      · rw [hmin, hws]
        have e : dest + (min d ws1.length + 1) = dest + 1 + min d ws1.length := by omega
        rw [e, htake]
        simp only [MbtowcResult.store, List.take_succ_cons]
        rw [take_succ_set wc buf dest (by omega)]
        simp
      · rw [hmin, hws]
        simpa using hdec2

/-! ## Lemmas: `Transcoder::decode` on valid input -/

namespace helpers

namespace Transcoder

/-- On valid input the loop of `decode`, started at a character boundary with more fuel
than characters left, returns `dst` followed by the remaining wide characters. -/
theorem decode_loop_valid (mbtowc : List Byte → MbtowcResult) (BUFSIZE : Nat)
    (SUBSTITUTION_WCHAR : wchar_t) (src : List Byte) (hlen : src.length < 2 ^ 64)
    (hB : 1 ≤ BUFSIZE) :
    ∀ (fuel in_ : Nat) (buf : List wchar_t) (dst : LogString) (ws : List wchar_t),
      in_ ≤ src.length → buf.length = BUFSIZE → Decodes mbtowc (src.drop in_) ws →
      ws.length < fuel →
      decode_loop mbtowc BUFSIZE SUBSTITUTION_WCHAR src src.length fuel in_ buf dst =
        .ok (dst ++ ws) := by
  intro fuel
  induction fuel with
  | zero => intro in_ buf dst ws _ _ _ hf; omega
  | succ f ih =>
    intro in_ buf dst ws hin hbuf hdec hf
    rw [decode_loop]
    by_cases hlt : in_ < src.length
    · rw [if_pos hlt, subSizeT_of_le _ _ hin hlen]
      obtain ⟨buf2, src2, mblen2, hrun, hlen2, htake, hsrc2, hdec2⟩ :=
        mbsnrtowcs_loop_valid mbtowc src hlen BUFSIZE buf 0 in_ (toSizeT (-1)) ws hin
          (by omega) hdec
      have hne : 1 ≤ ws.length := by
        rcases hdec.inv with ⟨hnil, _⟩ | ⟨wc, n, ws1, hws, _⟩
        · have := congrArg List.length hnil
          simp only [List.length_drop, List.length_nil] at this
          omega
        · subst hws; simp
      have hk : 1 ≤ min BUFSIZE ws.length := by omega
      have hrv : BUFSIZE - (BUFSIZE - min BUFSIZE ws.length) = min BUFSIZE ws.length := by
        omega
      have hrest : (ws.drop (min BUFSIZE ws.length)).length < f := by
        rw [List.length_drop]; omega
      have hstep := ih src2 buf2 (dst ++ ws.take (min BUFSIZE ws.length))
        (ws.drop (min BUFSIZE ws.length)) hsrc2 (by omega) hdec2 hrest
      simp only [List.take_zero, List.nil_append, Nat.zero_add] at htake
      simp only [mbsnrtowcs, hrun, Nat.not_lt_zero, if_false, hrv]
      rw [if_pos (by omega), htake, hstep, List.append_assoc, List.take_append_drop]
    · rw [if_neg hlt]
      have hnil : src.drop in_ = [] := List.drop_eq_nil_of_le (by omega)
      rw [hnil] at hdec
      rcases hdec.inv with ⟨_, hws⟩ | ⟨wc, n, ws1, _, _, hn1, hn2, _⟩
      · subst hws; simp
      · simp at hn2; omega

end Transcoder

end helpers

/-! ## Lemmas: `Transcoder::decode` on an invalid byte -/

theorem toSizeT_one : toSizeT 1 = 1 := by decide

theorem toSizeT_neg_one_lit : toSizeT (-1) = 18446744073709551615 := by decide

theorem addSizeT_zero_one : addSizeT 0 1 = 1 := by decide

theorem subSizeT_two_one : subSizeT 2 1 = 1 := by decide

theorem addSizeT_one_max : addSizeT 1 18446744073709551615 = 0 := by decide

theorem subSizeT_one_max : subSizeT 1 18446744073709551615 = 2 := by decide

/-- On the bytes 97, 255 the loop of `mbsnrtowcs` moves `*src` from the `a` to the invalid
byte and, on the `-1` of `mbtowc`, back to the `a`; it ends only when `destlen` is used up. -/
theorem mbsnrtowcs_loop_invalid :
    ∀ (destlen : Nat) (buf : List wchar_t) (dest src mblen : Nat), src = 0 ∨ src = 1 →
      ∃ buf2 src2 mblen2,
        mbsnrtowcs_loop asciiMbtowc [97, 255] destlen buf dest src (2 - src) mblen =
          .ok (buf2, src2, 0, mblen2) ∧ (src2 = 0 ∨ src2 = 1) := by
  intro destlen
  induction destlen with
  | zero =>
    intro buf dest src mblen h
    exact ⟨buf, src, mblen, by simp [mbsnrtowcs_loop], h⟩
  | succ d ih =>
    intro buf dest src mblen h
    rcases h with h | h
    · subst h
      obtain ⟨buf2, src2, mblen2, hrun, h2⟩ := ih (buf.set dest 97) (dest + 1) 1 1 (Or.inr rfl)
      refine ⟨buf2, src2, mblen2, ?_, h2⟩
      simpa [mbsnrtowcs_loop, asciiMbtowc, MbtowcResult.store, MbtowcResult.ret, toSizeT_one,
        addSizeT_zero_one, subSizeT_two_one] using hrun
    · subst h
      obtain ⟨buf2, src2, mblen2, hrun, h2⟩ :=
        ih buf (dest + 1) 0 18446744073709551615 (Or.inl rfl)
      refine ⟨buf2, src2, mblen2, ?_, h2⟩
      simpa [mbsnrtowcs_loop, asciiMbtowc, MbtowcResult.store, MbtowcResult.ret,
        toSizeT_neg_one_lit, addSizeT_one_max, subSizeT_one_max] using hrun

namespace helpers

namespace Transcoder

theorem decode_loop_invalid (BUFSIZE : Nat) (SUBSTITUTION_WCHAR : wchar_t) :
    ∀ (fuel in_ : Nat) (buf : List wchar_t) (dst : LogString), in_ = 0 ∨ in_ = 1 →
      decode_loop asciiMbtowc BUFSIZE SUBSTITUTION_WCHAR [97, 255] 2 fuel in_ buf dst =
        .error .fuel := by
  intro fuel
  induction fuel with
  | zero => intro in_ buf dst _; rfl
  | succ f ih =>
    intro in_ buf dst h
    have hlt : in_ < 2 := by omega
    have hsub : subSizeT 2 in_ = 2 - in_ := by
      rcases h with h | h <;> subst h <;> decide
    obtain ⟨buf2, src2, mblen2, hrun, h2⟩ :=
      mbsnrtowcs_loop_invalid BUFSIZE buf 0 in_ (toSizeT (-1)) h
    rw [decode_loop, if_pos hlt, hsub]
    simp only [mbsnrtowcs, hrun, Nat.not_lt_zero, if_false]
    exact ih src2 buf2 _ h2

end Transcoder

end helpers

/-! ## Lemmas: `Transcoder::encode` on a one-character string -/

/-- On the one-character string `a`, `wcsnrtombs` leaves the caller's `in` at index 0 and
returns a count that fits the array. -/
theorem wcsnrtombs_single (BUFSIZE : Nat) (buf : List Byte) (hbuf : buf.length = BUFSIZE) :
    ∃ rv buf2,
      wcsnrtombs asciiWctomb [97] buf 0 1 BUFSIZE = .ok (rv, buf2, 0) ∧
      buf2.length = BUFSIZE ∧ ¬ (rv > 0 ∧ rv > buf2.length) := by
  by_cases hB : BUFSIZE = 0
  · subst hB
    refine ⟨0, buf, ?_, hbuf, by omega⟩
    have e : subSizeT 0 0 = 0 := by decide
    simp [wcsnrtombs, wcsnrtombs_loop, e]
  · have hpos : BUFSIZE > 0 := Nat.pos_of_ne_zero hB
    have hrv : subSizeT BUFSIZE (subSizeT BUFSIZE 1) = 1 := by
      unfold subSizeT
      omega
    refine ⟨1, ([97] ++ buf.drop 1).set 0 ((([97] ++ buf.drop 1).getD 0 0 + 1) % 256), ?_, ?_,
      ?_⟩
    · have hlen : 1 ≤ buf.length := by omega
      simp [wcsnrtombs, wcsnrtombs_loop, asciiWctomb, WctombResult.ret, WctombResult.stored,
        toSizeT_one, hpos, hlen, hrv]
    · simp only [List.length_set, List.length_append, List.length_singleton, List.length_drop]
      omega
    · simp only [List.length_set, List.length_append, List.length_singleton, List.length_drop]
      omega

namespace helpers

namespace Transcoder

theorem encode_loop_single (BUFSIZE : Nat) (SUBSTITUTION_CHAR : Byte) :
    ∀ (fuel : Nat) (buf : List Byte) (dst : List Byte), buf.length = BUFSIZE →
      encode_loop asciiWctomb BUFSIZE SUBSTITUTION_CHAR [97] fuel 0 buf dst = .error .fuel := by
  intro fuel
  induction fuel with
  | zero => intro buf dst _; rfl
  | succ f ih =>
    intro buf dst hbuf
    obtain ⟨rv, buf2, hrun, hlen2, hfit⟩ := wcsnrtombs_single BUFSIZE buf hbuf
    have hsub : subSizeT 1 0 = 1 := by decide
    rw [encode_loop]
    simp only [List.length_singleton, Nat.zero_lt_one, if_true, hsub, hrun, hfit, if_false,
      Nat.not_lt_zero]
    exact ih buf2 _ hlen2

end Transcoder

end helpers

/-! ## Theorems: the wide-character transcoder functions -/

namespace helpers

namespace Transcoder

/-- Claim C5. Wide round trip: `decode(const wchar_t* src, len, dst)` leaves `dst` equal to
its prior content followed by the first `len` characters of `src` (`src` holding at least
`len` characters); `encode(const LogString& src, std::wstring& dst)` leaves `dst` equal to
its prior content followed by `src`; hence decoding all of `w` into an empty `LogString`
and encoding that into an empty `std::wstring` yields exactly `w`. -/
theorem wide_round_trip (w : List wchar_t) (len : Nat) (dst : LogString) (s : LogString)
    (dst2 : List wchar_t) (hlen : len ≤ w.length) :
    decodeW w len dst = .ok (dst ++ w.take len) ∧
    encodeW s dst2 = dst2 ++ s ∧
    (decodeW w w.length []).map (fun l => encodeW l []) = .ok w := by
  refine ⟨?_, rfl, ?_⟩
  · simp [decodeW, hlen]
  · simp [decodeW, encodeW, Except.map]

/-- Claim C5 at the wide string 104, 105, 33, decoding its first two characters after 7. -/
theorem wide_round_trip_witness :
    decodeW [104, 105, 33] 2 [7] = .ok [7, 104, 105] ∧
    encodeW [104, 105] [7] = [7, 104, 105] ∧
    (decodeW [104, 105, 33] 3 []).map (fun l => encodeW l []) = .ok [104, 105, 33] :=
  wide_round_trip [104, 105, 33] 2 [7] [104, 105] [7] (by decide)

/-! ## Theorems: the multi-byte transcoder functions -/

/-- Claim C2. For every byte string `src` of length `len` that is a concatenation of
complete, valid, non-NUL multi-byte characters with wide characters `ws`, every prior
content of `dst` and every `BUFSIZE ≥ 1`, `decode(const char*, len, dst)` terminates (any
fuel above `len` is enough) with `dst` equal to its prior content followed by `ws`; the
result is the same for every other `BUFSIZE ≥ 1`, so it does not depend on how the input
falls into chunks. -/
theorem decode_valid (mbtowc : List Byte → MbtowcResult) (BUFSIZE : Nat)
    (SUBSTITUTION_WCHAR : wchar_t) (uninit : Nat → wchar_t) (fuel : Nat) (src : List Byte)
    (dst : LogString) (ws : List wchar_t)
    (hB : 1 ≤ BUFSIZE) (hlen : src.length < 2 ^ 64) (hsrc : Decodes mbtowc src ws)
    (hfuel : src.length < fuel) :
    decode mbtowc BUFSIZE SUBSTITUTION_WCHAR uninit fuel src src.length dst = .ok (dst ++ ws) ∧
    ∀ (BUFSIZE2 : Nat) (uninit2 : Nat → wchar_t) (fuel2 : Nat),
      1 ≤ BUFSIZE2 → src.length < fuel2 →
      decode mbtowc BUFSIZE2 SUBSTITUTION_WCHAR uninit2 fuel2 src src.length dst =
        decode mbtowc BUFSIZE SUBSTITUTION_WCHAR uninit fuel src src.length dst := by
  have key : ∀ (B : Nat) (u : Nat → wchar_t) (fl : Nat), 1 ≤ B → src.length < fl →
      decode mbtowc B SUBSTITUTION_WCHAR u fl src src.length dst = .ok (dst ++ ws) := by
    intro B u fl h1 h2
    have hws := hsrc.length_le
    exact decode_loop_valid mbtowc B SUBSTITUTION_WCHAR src hlen h1 fl 0 _ dst ws
      (Nat.zero_le _) (by simp) (by simpa using hsrc) (by omega)
  refine ⟨key BUFSIZE uninit fuel hB hfuel, ?_⟩
  intro B2 u2 f2 h1 h2
  rw [key B2 u2 f2 h1 h2, key BUFSIZE uninit fuel hB hfuel]

/-- Claim C2 at the bytes 97, 195, 169 (a one-byte and a two-byte character) with
`BUFSIZE = 1`, so that each character is a chunk of its own: the result is 7, 97, 233. -/
theorem decode_valid_witness :
    decode utf8Mbtowc 1 63 (fun _ => 0) 4 [97, 195, 169] 3 [7] = .ok [7, 97, 233] :=
  (decode_valid utf8Mbtowc 1 63 (fun _ => 0) 4 [97, 195, 169] [7] [97, 233]
    (by decide) (by decide)
    (Decodes.cons [97, 195, 169] 97 1 [233] (by decide) (by decide) (by decide)
      (Decodes.cons [195, 169] 233 2 [] (by decide) (by decide) (by decide) Decodes.nil))
    (by decide)).1

/-- Claim C4, evaluated on the bytes 97, 255 (the character `a`, then an invalid byte) in
the single-byte locale. One call of `mbsnrtowcs` with room for two characters returns 2
with `*src` back at index 0 and the second array element still uninitialised: the `-1` of
`mbtowc` is counted as a character and moves the input back by one byte. `decode` then
never returns, for any `BUFSIZE`, substitution character, prior `dst` and fuel, instead of
returning `dst` followed by `a` and one substitution character. -/
theorem decode_invalid_byte_never_returns (BUFSIZE : Nat) (SUBSTITUTION_WCHAR : wchar_t)
    (uninit : Nat → wchar_t) (fuel : Nat) (dst : LogString) (u0 u1 : wchar_t) :
    mbsnrtowcs asciiMbtowc [97, 255] [u0, u1] 0 2 2 = .ok (2, [97, u1], 0) ∧
    decode asciiMbtowc BUFSIZE SUBSTITUTION_WCHAR uninit fuel [97, 255] 2 dst = .error .fuel ∧
    decode asciiMbtowc BUFSIZE SUBSTITUTION_WCHAR uninit fuel [97, 255] 2 dst ≠
      .ok (dst ++ [97, SUBSTITUTION_WCHAR]) := by
  have hrun : decode asciiMbtowc BUFSIZE SUBSTITUTION_WCHAR uninit fuel [97, 255] 2 dst =
      .error .fuel :=
    decode_loop_invalid BUFSIZE SUBSTITUTION_WCHAR fuel 0 _ dst (Or.inl rfl)
  refine ⟨?_, hrun, ?_⟩
  · simp [mbsnrtowcs, mbsnrtowcs_loop, asciiMbtowc, MbtowcResult.store, MbtowcResult.ret,
      toSizeT_one, toSizeT_neg_one_lit, addSizeT_zero_one, subSizeT_two_one, addSizeT_one_max,
      subSizeT_one_max]
  · rw [hrun]
    exact fun h => by cases h

/-- Claim C3, evaluated on the one-character string `a` in the single-byte locale. One
call of `wcsnrtombs` with a four-byte array returns 1 with the caller's `in` still at
index 0 and the first byte of the array equal to 98, not 97: `*src++` moves the parameter
`src` instead of `in`, and `*dest += mblen` adds to the stored byte instead of moving
`dest`. `encode` then never returns, for any `BUFSIZE`, substitution character, prior
`dst` and fuel, instead of returning `dst` followed by the byte 97. -/
theorem encode_single_char_never_returns (BUFSIZE : Nat) (SUBSTITUTION_CHAR : Byte)
    (uninit : Nat → Byte) (fuel : Nat) (dst : List Byte) (u0 u1 u2 u3 : Byte) :
    wcsnrtombs asciiWctomb [97] [u0, u1, u2, u3] 0 1 4 = .ok (1, [98, u1, u2, u3], 0) ∧
    encode asciiWctomb BUFSIZE SUBSTITUTION_CHAR uninit fuel [97] dst = .error .fuel ∧
    encode asciiWctomb BUFSIZE SUBSTITUTION_CHAR uninit fuel [97] dst ≠ .ok (dst ++ [97]) := by
  have hrun : encode asciiWctomb BUFSIZE SUBSTITUTION_CHAR uninit fuel [97] dst =
      .error .fuel :=
    encode_loop_single BUFSIZE SUBSTITUTION_CHAR fuel _ dst (by simp)
  refine ⟨?_, hrun, ?_⟩
  · have e1 : subSizeT 4 1 = 3 := by decide
    have e2 : subSizeT 4 3 = 1 := by decide
    simp [wcsnrtombs, wcsnrtombs_loop, asciiWctomb, WctombResult.ret, WctombResult.stored,
      toSizeT_one, e1, e2]
  · rw [hrun]
    exact fun h => by cases h

end Transcoder

end helpers

end log4cxx
